import Mathlib

/-!
# Shallow embedding of the Lazarus Vault CLI (`src/rustcli/src/main.rs`)

Conventions of the embedding:
* Rust byte slices / vectors (`Vec<u8>`, `[u8; N]`) are `List Nat`, each element
  intended to be `< 256`.
* Rust strings are `List Char` (`RStr` below); UTF-8 encoding is made explicit
  where the code hashes string data.
* Fallible Rust functions returning `anyhow::Result<T>` become
  `Except String T` (error strings follow the messages in the source).
* The process-wide randomness source (`OsRng.fill_bytes`) is injected as a
  byte provider `rng : Nat → Nat` (the spec's "substitutable random-byte
  provider"); byte `i` of an operation's random stream is `rng i % 256`.
* Network I/O (`reqwest` against the Walrus publisher) is injected as an
  oracle mapping a request URL (and, for PUT, the request body) to a response.
* The AES-256 block cipher used through the `aes_gcm` crate is an external
  primitive; the GCM mode of operation built on it (CTR keystream, GHASH tag)
  is embedded concretely, parametrised by the 128-bit block cipher
  `E : Bytes → Bytes → Bytes` (key, 16-byte block ↦ 16-byte block).
  Likewise the ed25519 primitives from `ed25519_dalek` are parameters.
* SHA-256 (the `sha2` crate) is embedded concretely.
-/

/-- Byte strings: Rust `Vec<u8>` / `&[u8]`. -/
abbrev Bytes := List Nat

/-- Rust strings, modelled as their character sequences. -/
abbrev RStr := List Char

/-- Convenience: the character sequence of a Lean string literal. -/
def str (s : String) : RStr := s.data

/-! ## Hex encoding and decoding (the `hex` crate)

`hex::encode` emits two lowercase hex digits per byte; `hex::decode` accepts
upper- or lowercase digits, fails on any non-hex character or an odd-length
input. -/

/-- The lowercase hex digit for `d < 16` (as emitted by `hex::encode`). -/
def hexDigitChar (d : Nat) : Char :=
  if d < 10 then Char.ofNat (48 + d) else Char.ofNat (87 + d)

/-- `hex::encode`: two lowercase digits per byte. -/
def hexEncode : Bytes → RStr
  | [] => []
  | b :: bs => hexDigitChar (b / 16) :: hexDigitChar (b % 16) :: hexEncode bs

/-- Value of a single hex digit, upper- or lowercase (as accepted by
`hex::decode`). -/
def hexDigitVal (c : Char) : Option Nat :=
  if 48 ≤ c.toNat ∧ c.toNat ≤ 57 then some (c.toNat - 48)
  else if 97 ≤ c.toNat ∧ c.toNat ≤ 102 then some (c.toNat - 87)
  else if 65 ≤ c.toNat ∧ c.toNat ≤ 70 then some (c.toNat - 55)
  else none

/-- `hex::decode`: fails on odd length or any non-hex character. -/
def hexDecode : RStr → Option Bytes
  | [] => some []
  | [_] => none
  | c1 :: c2 :: cs =>
    match hexDigitVal c1, hexDigitVal c2, hexDecode cs with
    | some hi, some lo, some rest => some ((16 * hi + lo) :: rest)
    | _, _, _ => none

/-! ## `"0x"` prefix stripping

Rust's `s.trim_start_matches("0x")` removes *all* leading occurrences of
`"0x"`. -/

/-- `str.trim_start_matches("0x")`. -/
def strip0x : RStr → RStr
  | a :: b :: rest => if a = '0' ∧ b = 'x' then strip0x rest else a :: b :: rest
  | s => s

/-! ## Key-material encoding (`encode_decryption_key` / `decode_decryption_key`) -/

/-- `encode_decryption_key`: hex of the 44-byte concatenation `key ‖ nonce`. -/
def encode_decryption_key (key nonce : Bytes) : RStr :=
  hexEncode (key ++ nonce)

/-- `decode_decryption_key`: strip an optional `0x` prefix, hex-decode, require
exactly 44 bytes, split into the 32-byte key and 12-byte nonce. -/
def decode_decryption_key (encoded : RStr) : Except String (Bytes × Bytes) :=
  match hexDecode (strip0x encoded) with
  | none => .error "decryption_key must be a hex string"
  | some raw =>
    if raw.length ≠ 44 then .error "decryption_key must be 44 bytes (88 hex chars)"
    else .ok (raw.take 32, raw.drop 32)

/-! ### Basic facts about hex -/

theorem hexDigitVal_hexDigitChar {d : Nat} (h : d < 16) :
    hexDigitVal (hexDigitChar d) = some d := by
  interval_cases d <;> decide

theorem hexDigitChar_ne_x {d : Nat} (h : d < 16) : hexDigitChar d ≠ 'x' := by
  interval_cases d <;> decide

theorem hexDecode_hexEncode : ∀ bs : Bytes, (∀ b ∈ bs, b < 256) →
    hexDecode (hexEncode bs) = some bs := by
  intro bs
  induction bs with
  | nil => intro _; rfl
  | cons b bs ih =>
    intro h
    have hb : b < 256 := h b (by simp)
    have h1 : b / 16 < 16 := by omega
    have h2 : b % 16 < 16 := by omega
    have ht : hexDecode (hexEncode bs) = some bs := ih (fun x hx => h x (by simp [hx]))
    simp only [hexEncode, hexDecode, hexDigitVal_hexDigitChar h1,
      hexDigitVal_hexDigitChar h2, ht]
    have : 16 * (b / 16) + b % 16 = b := by omega
    simp [this]

theorem length_hexEncode : ∀ bs : Bytes, (hexEncode bs).length = 2 * bs.length := by
  intro bs
  induction bs with
  | nil => rfl
  | cons b bs ih => simp [hexEncode, ih]; omega

theorem strip0x_hexEncode {b : Nat} (bs : Bytes) (hb : b < 256) :
    strip0x (hexEncode (b :: bs)) = hexEncode (b :: bs) := by
  have h2 : b % 16 < 16 := by omega
  simp only [hexEncode, strip0x]
  rw [if_neg]
  rintro ⟨_, hx⟩
  exact hexDigitChar_ne_x h2 hx

/-! ### Claims about key-material encoding -/

/-- C4: For every key of 32 bytes and nonce of 12 bytes,
`decode_decryption_key (encode_decryption_key k n)` succeeds and returns
exactly `(k, n)`. -/
theorem decode_encode_decryption_key_roundtrip
    (key nonce : Bytes)
    (hk : key.length = 32) (hn : nonce.length = 12)
    (hkb : ∀ b ∈ key, b < 256) (hnb : ∀ b ∈ nonce, b < 256) :
    decode_decryption_key (encode_decryption_key key nonce) = .ok (key, nonce) := by
  have hbytes : ∀ b ∈ key ++ nonce, b < 256 := by
    intro b hb
    rcases List.mem_append.mp hb with h | h
    · exact hkb b h
    · exact hnb b h
  have hdec : hexDecode (hexEncode (key ++ nonce)) = some (key ++ nonce) :=
    hexDecode_hexEncode _ hbytes
  obtain ⟨b, key', rfl⟩ : ∃ b key', key = b :: key' := by
    cases key with
    | nil => simp at hk
    | cons b key' => exact ⟨b, key', rfl⟩
  have hb : b < 256 := hkb b (by simp)
  have hstrip : strip0x (hexEncode ((b :: key') ++ nonce)) = hexEncode ((b :: key') ++ nonce) := by
    simpa using strip0x_hexEncode (key' ++ nonce) hb
  have hlen : ((b :: key') ++ nonce).length = 44 := by
    simp only [List.length_append]
    omega
  have htake : ((b :: key') ++ nonce).take 32 = b :: key' := by
    rw [show (32 : Nat) = (b :: key').length from hk.symm]
    exact List.take_left _ _
  have hdrop : ((b :: key') ++ nonce).drop 32 = nonce := by
    rw [show (32 : Nat) = (b :: key').length from hk.symm]
    exact List.drop_left _ _
  have heq : decode_decryption_key (encode_decryption_key (b :: key') nonce) =
      if ((b :: key') ++ nonce).length ≠ 44 then
        .error "decryption_key must be 44 bytes (88 hex chars)"
      else .ok (((b :: key') ++ nonce).take 32, ((b :: key') ++ nonce).drop 32) := by
    unfold decode_decryption_key encode_decryption_key
    rw [hstrip, hdec]
  rw [heq, if_neg (fun hcon => hcon hlen), htake, hdrop]

/-- Witness for C4 at a concrete key and nonce. -/
theorem decode_encode_decryption_key_roundtrip_witness :
    decode_decryption_key
      (encode_decryption_key (List.replicate 32 7) (List.replicate 12 9)) =
      .ok (List.replicate 32 7, List.replicate 12 9) :=
  decode_encode_decryption_key_roundtrip _ _ (by decide) (by decide)
    (by decide) (by decide)

/-- C5: `decode_decryption_key` succeeds exactly when the input (after optional
`0x` stripping) is valid hex decoding to exactly 44 bytes; on success the
returned key has 32 bytes, the nonce 12, and together they are the full decoded
byte string (no truncation ever happens). -/
theorem decode_decryption_key_spec (s : RStr) :
    ((∃ k n, decode_decryption_key s = .ok (k, n)) ↔
      (∃ raw, hexDecode (strip0x s) = some raw ∧ raw.length = 44)) ∧
    (∀ k n, decode_decryption_key s = .ok (k, n) →
      k.length = 32 ∧ n.length = 12 ∧ hexDecode (strip0x s) = some (k ++ n)) := by
  constructor
  · constructor
    · rintro ⟨k, n, hok⟩
      cases hdec : hexDecode (strip0x s) with
      | none =>
        have heq : decode_decryption_key s = .error "decryption_key must be a hex string" := by
          unfold decode_decryption_key; rw [hdec]
        rw [heq] at hok
        exact absurd hok (by simp)
      | some raw =>
        have heq : decode_decryption_key s =
            if raw.length ≠ 44 then .error "decryption_key must be 44 bytes (88 hex chars)"
            else .ok (raw.take 32, raw.drop 32) := by
          unfold decode_decryption_key; rw [hdec]
        rw [heq] at hok
        by_cases hlen : raw.length = 44
        · exact ⟨raw, rfl, hlen⟩
        · rw [if_pos hlen] at hok; exact absurd hok (by simp)
    · rintro ⟨raw, hdec, hlen⟩
      refine ⟨raw.take 32, raw.drop 32, ?_⟩
      have heq : decode_decryption_key s =
          if raw.length ≠ 44 then .error "decryption_key must be 44 bytes (88 hex chars)"
          else .ok (raw.take 32, raw.drop 32) := by
        unfold decode_decryption_key; rw [hdec]
      rw [heq, if_neg (fun hcon => hcon hlen)]
  · intro k n hok
    cases hdec : hexDecode (strip0x s) with
    | none =>
      have heq : decode_decryption_key s = .error "decryption_key must be a hex string" := by
        unfold decode_decryption_key; rw [hdec]
      rw [heq] at hok
      exact absurd hok (by simp)
    | some raw =>
      have heq : decode_decryption_key s =
          if raw.length ≠ 44 then .error "decryption_key must be 44 bytes (88 hex chars)"
          else .ok (raw.take 32, raw.drop 32) := by
        unfold decode_decryption_key; rw [hdec]
      rw [heq] at hok
      by_cases hlen : raw.length = 44
      · rw [if_neg (fun hcon => hcon hlen)] at hok
        have hpair : (raw.take 32, raw.drop 32) = (k, n) := Except.ok.inj hok
        injection hpair with h1 h2
        subst h1
        subst h2
        refine ⟨?_, ?_, ?_⟩
        · simp [List.length_take, hlen]
        · simp [List.length_drop, hlen]
        · simpa [List.take_append_drop] using hdec
      · rw [if_pos hlen] at hok; exact absurd hok (by simp)

/-- Witness for C5 at a concrete 88-hex-char input that decodes successfully. -/
theorem decode_decryption_key_spec_witness :
    (List.replicate 32 (1 : Nat)).length = 32 ∧
    (List.replicate 12 (1 : Nat)).length = 12 ∧
    hexDecode (strip0x (hexEncode (List.replicate 44 1))) =
      some (List.replicate 32 1 ++ List.replicate 12 1) := by
  have h := (decode_decryption_key_spec (hexEncode (List.replicate 44 1))).2
    (List.replicate 32 1) (List.replicate 12 1) (by rfl)
  exact h

/-- `hexEncode` never emits a leading `"0x"`: hex digits exclude `'x'`. -/
theorem hexEncode_no_0x_start (bs : Bytes) (h : ∀ b ∈ bs, b < 256) :
    ¬ ∃ t, hexEncode bs = '0' :: 'x' :: t := by
  rintro ⟨t, ht⟩
  cases bs with
  | nil => simp [hexEncode] at ht
  | cons b bs =>
    have hb : b < 256 := h b (by simp)
    have h2 : b % 16 < 16 := by omega
    simp only [hexEncode] at ht
    injection ht with ha hrest
    injection hrest with hb2 _
    exact hexDigitChar_ne_x h2 hb2

/-- C10: `decode_decryption_key` accepts an optional `0x` prefix: prepending
`"0x"` to any input yields exactly the same result (success or failure, and
the same key/nonce pair) — while `encode_decryption_key` itself never emits
such a prefix. -/
theorem decode_decryption_key_0x_agnostic (s : RStr) :
    decode_decryption_key ('0' :: 'x' :: s) = decode_decryption_key s ∧
    (∀ key nonce : Bytes, (∀ b ∈ key ++ nonce, b < 256) →
      ¬ ∃ t, encode_decryption_key key nonce = '0' :: 'x' :: t) := by
  constructor
  · have h : strip0x ('0' :: 'x' :: s) = strip0x s := by simp [strip0x]
    unfold decode_decryption_key
    rw [h]
  · intro key nonce hb
    exact hexEncode_no_0x_start (key ++ nonce) hb

/-- Witness for C10 at a concrete input. -/
theorem decode_decryption_key_0x_agnostic_witness :
    decode_decryption_key ('0' :: 'x' :: str "ab") = decode_decryption_key (str "ab") ∧
    ¬ ∃ t, encode_decryption_key [0] [1] = '0' :: 'x' :: t :=
  ⟨(decode_decryption_key_0x_agnostic (str "ab")).1,
   (decode_decryption_key_0x_agnostic (str "ab")).2 [0] [1] (by decide)⟩

/-! ## Audit canonicalizer (`hash_audit`)

`hash_audit` splits the `tags` argument on `','`, trims each piece, drops the
empty pieces, sorts (Rust `Vec::sort`, a stable sort under `String`'s
lexicographic byte order — on UTF-8 data this coincides with the
codepoint-lexicographic order on `List Char` used here), serialises the record
with `serde_json` in declared field order, and hashes the UTF-8 bytes of the
JSON text with SHA-256. -/

/-- Rust `char::is_whitespace` (the Unicode `White_Space` property). -/
def rustIsWhitespace (c : Char) : Bool :=
  c.toNat ∈ [9, 10, 11, 12, 13, 32, 0x85, 0xA0, 0x1680,
    0x2000, 0x2001, 0x2002, 0x2003, 0x2004, 0x2005, 0x2006, 0x2007,
    0x2008, 0x2009, 0x200A, 0x2028, 0x2029, 0x202F, 0x205F, 0x3000]

/-- Rust `str::trim`: strip leading and trailing whitespace. -/
def rustTrim (s : RStr) : RStr :=
  ((s.dropWhile rustIsWhitespace).reverse.dropWhile rustIsWhitespace).reverse

/-- Rust `str::split(',')`: the comma-separated pieces, empty pieces kept. -/
def splitOnComma : RStr → List RStr
  | [] => [[]]
  | c :: rest =>
    if c = ',' then [] :: splitOnComma rest
    else
      match splitOnComma rest with
      | [] => [[c]]
      | p :: ps => (c :: p) :: ps

/-- The trimmed, non-empty comma-separated pieces of the `tags` argument, in
input order (the state of `parsed_tags` before `sort()`). -/
def rawTags (tags : RStr) : List RStr :=
  ((splitOnComma tags).map rustTrim).filter (· ≠ [])

/-- `hash_audit`'s tag parsing: split on `','`, trim, drop empties, sort.
(No deduplication is performed.) -/
def parseTags (tags : RStr) : List RStr :=
  List.insertionSort (· ≤ ·) (rawTags tags)

/-- `CanonicalAuditRecord` (field order as declared, which fixes the
`serde_json` serialization order). -/
structure CanonicalAuditRecord where
  action : RStr
  prompt : RStr
  score : Nat
  tags : List RStr
  decision : RStr
  reason : RStr
  timestamp : RStr

/-- `serde_json`'s escaping of one character inside a JSON string literal. -/
def jsonEscapeChar (c : Char) : RStr :=
  if c = '"' then ['\\', '"']
  else if c = '\\' then ['\\', '\\']
  else if c.toNat ≥ 32 then [c]
  else if c.toNat = 8 then ['\\', 'b']
  else if c.toNat = 9 then ['\\', 't']
  else if c.toNat = 10 then ['\\', 'n']
  else if c.toNat = 12 then ['\\', 'f']
  else if c.toNat = 13 then ['\\', 'r']
  else ['\\', 'u', '0', '0', hexDigitChar (c.toNat / 16), hexDigitChar (c.toNat % 16)]

/-- A JSON string literal for `s`. -/
def jsonString (s : RStr) : RStr :=
  '"' :: (s.map jsonEscapeChar).flatten ++ ['"']

/-- A JSON array literal from already-serialised elements. -/
def jsonArray (elems : List RStr) : RStr :=
  '[' :: (List.intersperse (str ",") elems).flatten ++ [']']

/-- `serde_json::to_string(&record)`: compact JSON in declared field order. -/
def canonicalAuditJson (r : CanonicalAuditRecord) : RStr :=
  str "\x7b\"action\":" ++ jsonString r.action ++
  str ",\"prompt\":" ++ jsonString r.prompt ++
  str ",\"score\":" ++ (Nat.repr r.score).data ++
  str ",\"tags\":" ++ jsonArray (r.tags.map jsonString) ++
  str ",\"decision\":" ++ jsonString r.decision ++
  str ",\"reason\":" ++ jsonString r.reason ++
  str ",\"timestamp\":" ++ jsonString r.timestamp ++
  str "\x7d"

/-- UTF-8 encoding of one Unicode scalar value. -/
def utf8Char (n : Nat) : Bytes :=
  if n < 0x80 then [n]
  else if n < 0x800 then [0xC0 + n / 64, 0x80 + n % 64]
  else if n < 0x10000 then [0xE0 + n / 4096, 0x80 + n / 64 % 64, 0x80 + n % 64]
  else [0xF0 + n / 0x40000, 0x80 + n / 4096 % 64, 0x80 + n / 64 % 64, 0x80 + n % 64]

/-- UTF-8 encoding of a string (Rust `str::as_bytes`). -/
def utf8Bytes (s : RStr) : Bytes :=
  (s.map (fun c => utf8Char c.toNat)).flatten

/-! ## SHA-256 (the `sha2` crate), over bytes -/

/-- The SHA-256 round constants. -/
def sha256K : List Nat :=
  [1116352408, 1899447441, 3049323471, 3921009573, 961987163, 1508970993,
   2453635748, 2870763221, 3624381080, 310598401, 607225278, 1426881987,
   1925078388, 2162078206, 2614888103, 3248222580, 3835390401, 4022224774,
   264347078, 604807628, 770255983, 1249150122, 1555081692, 1996064986,
   2554220882, 2821834349, 2952996808, 3210313671, 3336571891, 3584528711,
   113926993, 338241895, 666307205, 773529912, 1294757372, 1396182291,
   1695183700, 1986661051, 2177026350, 2456956037, 2730485921, 2820302411,
   3259730800, 3345764771, 3516065817, 3600352804, 4094571909, 275423344,
   430227734, 506948616, 659060556, 883997877, 958139571, 1322822218,
   1537002063, 1747873779, 1955562222, 2024104815, 2227730452, 2361852424,
   2428436474, 2756734187, 3204031479, 3329325298]

/-- The SHA-256 initial hash state. -/
def sha256H0 : List Nat :=
  [1779033703, 3144134277, 1013904242, 2773480762,
   1359893119, 2600822924, 528734635, 1541459225]

/-- 32-bit right rotation (for `x < 2^32`, `0 ≤ n ≤ 32`). -/
def rotr32 (n x : Nat) : Nat := x / 2 ^ n + x % 2 ^ n * 2 ^ (32 - n)

/-- Big-endian bytes of `n`, `w` bytes wide. -/
def natToBytesBE : Nat → Nat → Bytes
  | 0, _ => []
  | w + 1, n => natToBytesBE w (n / 256) ++ [n % 256]

/-- Big-endian 32-bit words of a byte string (length a multiple of 4). -/
def bytesToWordsBE : Bytes → List Nat
  | a :: b :: c :: d :: rest => (((a * 256 + b) * 256 + c) * 256 + d) :: bytesToWordsBE rest
  | _ => []

/-- SHA-256 message padding: `0x80`, zeros, 64-bit big-endian bit length. -/
def sha256Pad (msg : Bytes) : Bytes :=
  msg ++ 0x80 :: List.replicate ((64 - (msg.length + 9) % 64) % 64) 0 ++
    natToBytesBE 8 (8 * msg.length)

/-- Message-schedule extension: repeatedly append the next word `w[t]`. -/
def sha256Extend : Nat → List Nat → List Nat
  | 0, ws => ws
  | fuel + 1, ws =>
    let t := ws.length
    let s0 := rotr32 7 (ws.getD (t - 15) 0) ^^^ rotr32 18 (ws.getD (t - 15) 0) ^^^
      ws.getD (t - 15) 0 / 2 ^ 3
    let s1 := rotr32 17 (ws.getD (t - 2) 0) ^^^ rotr32 19 (ws.getD (t - 2) 0) ^^^
      ws.getD (t - 2) 0 / 2 ^ 10
    sha256Extend fuel (ws ++ [(s1 + ws.getD (t - 7) 0 + s0 + ws.getD (t - 16) 0) % 2 ^ 32])

/-- One SHA-256 round: the state is the word list `[a,b,c,d,e,f,g,h]`. -/
def sha256Round (st : List Nat) (kw : Nat × Nat) : List Nat :=
  let a := st.getD 0 0
  let b := st.getD 1 0
  let c := st.getD 2 0
  let d := st.getD 3 0
  let e := st.getD 4 0
  let f := st.getD 5 0
  let g := st.getD 6 0
  let h := st.getD 7 0
  let ch := (e &&& f) ^^^ ((e ^^^ 0xffffffff) &&& g)
  let maj := (a &&& b) ^^^ (a &&& c) ^^^ (b &&& c)
  let bigS1 := rotr32 6 e ^^^ rotr32 11 e ^^^ rotr32 25 e
  let bigS0 := rotr32 2 a ^^^ rotr32 13 a ^^^ rotr32 22 a
  let t1 := (h + bigS1 + ch + kw.1 + kw.2) % 2 ^ 32
  let t2 := (bigS0 + maj) % 2 ^ 32
  [(t1 + t2) % 2 ^ 32, a, b, c, (d + t1) % 2 ^ 32, e, f, g]

/-- Compress one 64-byte chunk into the running state. -/
def sha256Chunk (state : List Nat) (chunk : Bytes) : List Nat :=
  let ws := sha256Extend 48 (bytesToWordsBE chunk)
  let final := (sha256K.zip ws).foldl sha256Round state
  (state.zip final).map (fun p => (p.1 + p.2) % 2 ^ 32)

/-- Split into 64-byte chunks (`fuel` bounds the recursion). -/
def chunk64Aux : Nat → Bytes → List Bytes
  | 0, _ => []
  | _, [] => []
  | fuel + 1, l => l.take 64 :: chunk64Aux fuel (l.drop 64)

/-- SHA-256 digest (32 bytes) of a byte string. -/
def sha256 (msg : Bytes) : Bytes :=
  let padded := sha256Pad msg
  let final := (chunk64Aux padded.length padded).foldl sha256Chunk sha256H0
  (final.map (natToBytesBE 4)).flatten

/-- `compute_checksum`: lowercase hex of the SHA-256 digest. -/
def compute_checksum (data : Bytes) : RStr := hexEncode (sha256 data)

set_option maxRecDepth 100000

/-- Sanity: the SHA-256 test vector for `"abc"`. -/
theorem sha256_test_vector_abc :
    compute_checksum (utf8Bytes (str "abc")) =
      str "ba7816bf8f01cfea414140de5dae2223b00361a396177a9cb410ff61f20015ad" := by
  decide

/-- Sanity: the SHA-256 test vector for the empty message. -/
theorem sha256_test_vector_empty :
    compute_checksum [] =
      str "e3b0c44298fc1c149afbf4c8996fb92427ae41e4649b934ca495991b7852b855" := by
  decide

/-- `hash_audit`: canonicalize the record (tags parsed by `parseTags`, fields
serialised in declared order) and hash the JSON text, `0x`-prefixed lowercase
hex. Returns the `record_hash` the CLI prints. -/
def hash_audit (action prompt : RStr) (score : Nat)
    (tags decision reason timestamp : RStr) : RStr :=
  let record : CanonicalAuditRecord :=
    { action := action, prompt := prompt, score := score, tags := parseTags tags,
      decision := decision, reason := reason, timestamp := timestamp }
  str "0x" ++ hexEncode (sha256 (utf8Bytes (canonicalAuditJson record)))

/-! ### Claims about audit canonicalization -/

/-- C6: audit canonicalization is order-independent over tags — if two
`tagsCsv` inputs yield the same trimmed non-empty pieces up to order, the
record hash is identical (all other fields fixed). -/
theorem hash_audit_tag_order_independent
    (action prompt : RStr) (score : Nat) (decision reason timestamp : RStr)
    (t1 t2 : RStr) (h : List.Perm (rawTags t1) (rawTags t2)) :
    hash_audit action prompt score t1 decision reason timestamp =
    hash_audit action prompt score t2 decision reason timestamp := by
  have hperm : List.Perm (parseTags t1) (parseTags t2) :=
    (List.perm_insertionSort _ _).trans (h.trans (List.perm_insertionSort _ _).symm)
  have heq : parseTags t1 = parseTags t2 :=
    List.eq_of_perm_of_sorted hperm
      (List.sorted_insertionSort _ _) (List.sorted_insertionSort _ _)
  simp only [hash_audit, heq]

/-- Witness for C6: `"b,a"` and `"a, b"` hash identically. -/
theorem hash_audit_tag_order_independent_witness :
    hash_audit (str "act") (str "p") 1 (str "b,a") (str "allow") (str "r") (str "ts") =
    hash_audit (str "act") (str "p") 1 (str "a, b") (str "allow") (str "r") (str "ts") :=
  hash_audit_tag_order_independent _ _ _ _ _ _ _ _ (by decide)

/-- C3 counterexample: duplicates are NOT removed from the tag list —
`"a,a"` keeps both copies, and its canonical JSON and record hash differ from
those of `"a"`. -/
theorem hash_audit_tags_not_deduplicated :
    parseTags (str "a,a") = [str "a", str "a"] ∧
    parseTags (str "a") = [str "a"] ∧
    canonicalAuditJson
      { action := str "act", prompt := str "p", score := 1,
        tags := parseTags (str "a,a"), decision := str "allow",
        reason := str "r", timestamp := str "ts" } ≠
    canonicalAuditJson
      { action := str "act", prompt := str "p", score := 1,
        tags := parseTags (str "a"), decision := str "allow",
        reason := str "r", timestamp := str "ts" } ∧
    hash_audit (str "act") (str "p") 1 (str "a,a") (str "allow") (str "r") (str "ts") ≠
    hash_audit (str "act") (str "p") 1 (str "a") (str "allow") (str "r") (str "ts") := by
  refine ⟨by decide, by decide, by decide, by decide⟩

/-- C3 (amended): the tags field of the canonical record is the sorted list of
trimmed, non-blank comma-separated pieces; blanks are removed, but duplicates
are retained (the parsed list is a permutation of the raw piece list, element
counts included). -/
theorem parseTags_spec (tags : RStr) :
    List.Perm (parseTags tags) (rawTags tags) ∧
    List.Sorted (· ≤ ·) (parseTags tags) ∧
    (∀ t ∈ parseTags tags, t ≠ []) := by
  have hperm : List.Perm (parseTags tags) (rawTags tags) :=
    List.perm_insertionSort _ _
  refine ⟨hperm, List.sorted_insertionSort _ _, ?_⟩
  intro t ht
  have : t ∈ rawTags tags := hperm.mem_iff.mp ht
  have := List.of_mem_filter this
  simpa using this

/-- Witness for C3's amended statement at a concrete input. -/
theorem parseTags_spec_witness :
    List.Perm (parseTags (str "b, ,a,b")) (rawTags (str "b, ,a,b")) ∧
    str "a" ≠ ([] : RStr) :=
  ⟨(parseTags_spec (str "b, ,a,b")).1,
   (parseTags_spec (str "b, ,a,b")).2.2 (str "a") (by decide)⟩

/-! ## The envelope cipher: AES-256-GCM (`encrypt_data` / `decrypt_blob`)

The GCM mode of operation is embedded concretely (CTR-mode keystream over a
32-bit counter, GHASH over GF(2^128), 16-byte tag appended to the ciphertext),
parametrised by the 128-bit block cipher `E` (AES-256 in the program). -/

/-- Big-endian integer value of a byte string. -/
def bytesToNatBE (bs : Bytes) : Nat := bs.foldl (fun acc b => 256 * acc + b) 0

/-- One step of carry-less multiplication in GF(2^128)
(`R = 0xe1 << 120`, bit-reflected GCM convention). -/
def gmulAux : Nat → Nat → Nat → Nat → Nat
  | 0, _, _, z => z
  | fuel + 1, x, v, z =>
    let z' := if x / 2 ^ 127 % 2 = 1 then z ^^^ v else z
    let v' := if v % 2 = 1 then (v / 2) ^^^ (0xe1 <<< 120) else v / 2
    gmulAux fuel (x * 2 % 2 ^ 128) v' z'

/-- Multiplication in GF(2^128) as used by GHASH. -/
def gmul (x y : Nat) : Nat := gmulAux 128 x y 0

/-- Zero-pad a (≤ 16 byte) block to 16 bytes. -/
def padBlock16 (b : Bytes) : Bytes := b ++ List.replicate (16 - b.length) 0

/-- Split into zero-padded 16-byte blocks (`fuel` bounds the recursion). -/
def chunk16Aux : Nat → Bytes → List Bytes
  | 0, _ => []
  | _, [] => []
  | fuel + 1, l => padBlock16 (l.take 16) :: chunk16Aux fuel (l.drop 16)

/-- Split a byte string into zero-padded 16-byte blocks. -/
def chunk16 (l : Bytes) : List Bytes := chunk16Aux l.length l

/-- GHASH over the padded AAD and ciphertext blocks plus the length block. -/
def ghash (h : Nat) (aad c : Bytes) : Nat :=
  let blocks := (chunk16 aad ++ chunk16 c).map bytesToNatBE ++
    [8 * aad.length % 2 ^ 64 * 2 ^ 64 + 8 * c.length % 2 ^ 64]
  blocks.foldl (fun y b => gmul (y ^^^ b) h) 0

/-- The GCM counter block: 12-byte nonce followed by the 32-bit counter
`1 + i` (so `i = 0` is `J0`, and the keystream uses `i = 1, 2, …`). -/
def ctrBlock (nonce : Bytes) (i : Nat) : Bytes :=
  nonce ++ natToBytesBE 4 ((1 + i) % 2 ^ 32)

/-- The CTR keystream: `n` bytes of `E_key(ctr 1), E_key(ctr 2), …`. -/
def keystream (E : Bytes → Bytes → Bytes) (key nonce : Bytes) (n : Nat) : Bytes :=
  (((List.range ((n + 15) / 16)).map (fun i => E key (ctrBlock nonce (i + 1)))).flatten).take n

/-- GCM encryption (no AAD, as in `cipher.encrypt(nonce, plaintext)`):
CTR-encrypted plaintext followed by the 16-byte authentication tag. -/
def encryptGCM (E : Bytes → Bytes → Bytes) (key nonce pt : Bytes) : Bytes :=
  let c := List.zipWith (fun a b => a ^^^ b) pt (keystream E key nonce pt.length)
  let h := bytesToNatBE (E key (List.replicate 16 0))
  let tag := natToBytesBE 16 (ghash h [] c ^^^ bytesToNatBE (E key (ctrBlock nonce 0)))
  c ++ tag

/-- GCM decryption (`cipher.decrypt(nonce, ciphertext)`): split off the 16-byte
tag, recompute it over the ciphertext body, and only on a tag match return the
CTR-decrypted plaintext; any mismatch (or an input shorter than the tag) is a
`DecryptionError`, modelled as `none`. -/
def decryptGCM (E : Bytes → Bytes → Bytes) (key nonce data : Bytes) : Option Bytes :=
  if data.length < 16 then none
  else
    let c := data.take (data.length - 16)
    let tag := data.drop (data.length - 16)
    let h := bytesToNatBE (E key (List.replicate 16 0))
    let expected := natToBytesBE 16 (ghash h [] c ^^^ bytesToNatBE (E key (ctrBlock nonce 0)))
    if tag = expected then
      some (List.zipWith (fun a b => a ^^^ b) c (keystream E key nonce c.length))
    else none

/-- `encrypt_data`: draw a fresh 32-byte key and 12-byte nonce from the
injected random-byte provider, encrypt, and return
`(ciphertext, key, nonce)`. -/
def encrypt_data (E : Bytes → Bytes → Bytes) (rng : Nat → Nat) (pt : Bytes) :
    Bytes × Bytes × Bytes :=
  let key := (List.range 32).map (fun i => rng i % 256)
  let nonce := (List.range 12).map (fun i => rng (32 + i) % 256)
  (encryptGCM E key nonce pt, key, nonce)

/-! ### Length and cancellation lemmas for GCM -/

theorem length_natToBytesBE : ∀ (w n : Nat), (natToBytesBE w n).length = w := by
  intro w
  induction w with
  | zero => intro n; rfl
  | succ w ih => intro n; simp [natToBytesBE, ih]

theorem length_keystream (E : Bytes → Bytes → Bytes) (key nonce : Bytes) (n : Nat)
    (hE : ∀ k b, (E k b).length = 16) : (keystream E key nonce n).length = n := by
  unfold keystream
  rw [List.length_take]
  have hflat :
      (((List.range ((n + 15) / 16)).map (fun i => E key (ctrBlock nonce (i + 1)))).flatten).length
        = 16 * ((n + 15) / 16) := by
    rw [List.length_flatten, List.map_map]
    have : ((List.range ((n + 15) / 16)).map
        (List.length ∘ fun i => E key (ctrBlock nonce (i + 1)))) =
        (List.range ((n + 15) / 16)).map (fun _ => 16) := by
      apply List.map_congr_left
      intro i _
      exact hE key (ctrBlock nonce (i + 1))
    rw [this, List.map_const', List.sum_replicate, List.length_range, smul_eq_mul]
    omega
  rw [hflat]
  omega

theorem zipWith_xor_cancel : ∀ (pt ks : Bytes), pt.length ≤ ks.length →
    List.zipWith (fun a b => a ^^^ b) (List.zipWith (fun a b => a ^^^ b) pt ks) ks = pt := by
  intro pt
  induction pt with
  | nil => intro ks _; simp
  | cons p pt ih =>
    intro ks hlen
    cases ks with
    | nil => simp at hlen
    | cons k ks =>
      simp only [List.zipWith_cons_cons]
      rw [Nat.xor_cancel_right]
      rw [ih ks (by simpa using hlen)]

theorem decryptGCM_append_tag (E : Bytes → Bytes → Bytes) (key nonce c tag : Bytes)
    (htag : tag.length = 16) :
    decryptGCM E key nonce (c ++ tag) =
      if tag = natToBytesBE 16 (ghash (bytesToNatBE (E key (List.replicate 16 0))) [] c ^^^
          bytesToNatBE (E key (ctrBlock nonce 0))) then
        some (List.zipWith (fun a b => a ^^^ b) c (keystream E key nonce c.length))
      else none := by
  have hsub : (c ++ tag).length - 16 = c.length := by
    simp only [List.length_append, htag]
    omega
  have htk : (c ++ tag).take ((c ++ tag).length - 16) = c := by
    rw [hsub]; exact List.take_left _ _
  have hdp : (c ++ tag).drop ((c ++ tag).length - 16) = tag := by
    rw [hsub]; exact List.drop_left _ _
  have hnlt : ¬ ((c ++ tag).length < 16) := by
    simp only [List.length_append, htag]; omega
  simp only [decryptGCM, htk, hdp]
  rw [if_neg hnlt]

theorem decryptGCM_encryptGCM (E : Bytes → Bytes → Bytes) (key nonce pt : Bytes)
    (hE : ∀ k b, (E k b).length = 16) :
    decryptGCM E key nonce (encryptGCM E key nonce pt) = some pt := by
  have hks : (keystream E key nonce pt.length).length = pt.length :=
    length_keystream E key nonce pt.length hE
  set ks := keystream E key nonce pt.length with hksdef
  set c := List.zipWith (fun a b => a ^^^ b) pt ks with hcdef
  have hc : c.length = pt.length := by
    rw [hcdef, List.length_zipWith, hks]; omega
  set tag := natToBytesBE 16 (ghash (bytesToNatBE (E key (List.replicate 16 0))) [] c ^^^
    bytesToNatBE (E key (ctrBlock nonce 0))) with htagdef
  have htaglen : tag.length = 16 := length_natToBytesBE 16 _
  have henc : encryptGCM E key nonce pt = c ++ tag := rfl
  rw [henc, decryptGCM_append_tag E key nonce c tag htaglen, if_pos rfl, hc]
  exact congrArg some (zipWith_xor_cancel pt ks (le_of_eq hks.symm))

/-! ### Claims about the envelope cipher -/

/-- C1: encrypt-then-decrypt round trip — for every plaintext, decrypting the
ciphertext produced by GCM encryption with the same key and nonce returns
exactly the plaintext; in particular for the ciphertext, key and nonce
returned by `encrypt_data` (for any block cipher returning 16-byte blocks,
AES-256 included, and any randomness). -/
theorem encrypt_decrypt_roundtrip (E : Bytes → Bytes → Bytes) (rng : Nat → Nat)
    (pt : Bytes) (hE : ∀ k b, (E k b).length = 16) :
    (∀ key nonce : Bytes, decryptGCM E key nonce (encryptGCM E key nonce pt) = some pt) ∧
    decryptGCM E (encrypt_data E rng pt).2.1 (encrypt_data E rng pt).2.2
      (encrypt_data E rng pt).1 = some pt := by
  refine ⟨fun key nonce => decryptGCM_encryptGCM E key nonce pt hE, ?_⟩
  exact decryptGCM_encryptGCM E _ _ pt hE

/-- Witness for C1 at a concrete block cipher, keys and plaintext. -/
theorem encrypt_decrypt_roundtrip_witness :
    decryptGCM (fun _ _ => List.replicate 16 0) [5] [6]
      (encryptGCM (fun _ _ => List.replicate 16 0) [5] [6] [1, 2, 3]) = some [1, 2, 3] :=
  (encrypt_decrypt_roundtrip (fun _ _ => List.replicate 16 0) (fun i => i) [1, 2, 3]
    (fun _ _ => rfl)).1 [5] [6]

/-! ## Blob transport (`upload_to_walrus_async` / `download_from_walrus_async`)

HTTP is injected as an oracle from the request URL (and body, for PUT) to the
response. A response is either a send error (`reqwest::Error`), or an HTTP
response with a success flag, a status text, and a body. -/

/-- `publisher_url.trim_end_matches('/')`: strip all trailing slashes. -/
def trimEndSlashes (s : RStr) : RStr := (s.reverse.dropWhile (· = '/')).reverse

/-- The two candidate GET URLs tried by `download_from_walrus_async`. -/
def downloadCandidates (publisher blob_id : RStr) : List RStr :=
  [trimEndSlashes publisher ++ str "/v1/" ++ blob_id,
   trimEndSlashes publisher ++ str "/v1/blobs/" ++ blob_id]

/-- Outcome of one GET request: a send error, or a response with success flag,
status text, and a (possibly failing) body read. -/
inductive HttpGetResult where
  | sendErr (e : RStr)
  | resp (isSuccess : Bool) (status : RStr) (body : Except RStr Bytes)

/-- The `for url in candidates` loop of `download_from_walrus_async`, with the
running `last_err`. A success status returns the body (a body-read failure
propagates immediately); a non-success status or send error updates
`last_err` and moves on; exhaustion fails with the last error detail. -/
def downloadLoop (O : RStr → HttpGetResult) (blob_id : RStr) :
    List RStr → RStr → Except RStr Bytes
  | [], last_err =>
    .error (str "Failed to download blob " ++ blob_id ++ str " from Walrus: " ++ last_err)
  | url :: rest, last_err =>
    match O url with
    | .resp true _ (.ok bytes) => .ok bytes
    | .resp true _ (.error _) => .error (str "Failed reading response body from " ++ url)
    | .resp false status _ => downloadLoop O blob_id rest (url ++ str " -> status " ++ status)
    | .sendErr e => downloadLoop O blob_id rest (url ++ str " -> " ++ e)

/-- `download_from_walrus(_async)`. -/
def download_from_walrus (O : RStr → HttpGetResult) (blob_id publisher : RStr) :
    Except RStr Bytes :=
  downloadLoop O blob_id (downloadCandidates publisher blob_id) []

/-- The URLs actually requested by the download loop, in order (the loop stops
requesting after a success-status response). -/
def downloadLoopRequests (O : RStr → HttpGetResult) : List RStr → List RStr
  | [] => []
  | url :: rest =>
    match O url with
    | .resp true _ _ => [url]
    | .resp false _ _ => url :: downloadLoopRequests O rest
    | .sendErr _ => url :: downloadLoopRequests O rest

/-- The URLs requested by `download_from_walrus`. -/
def downloadRequests (O : RStr → HttpGetResult) (blob_id publisher : RStr) : List RStr :=
  downloadLoopRequests O (downloadCandidates publisher blob_id)

/-- `BlobObject` of the Walrus response JSON. -/
structure BlobObject where
  blob_id : RStr

/-- `WalrusBlob` of the Walrus response JSON. -/
structure WalrusBlob where
  blob_object : BlobObject

/-- `WalrusResponse`: either branch may be present. -/
structure WalrusResponse where
  newly_created : Option WalrusBlob
  already_certified : Option WalrusBlob

/-- `WalrusResponse::get_blob_id`. -/
def WalrusResponse.get_blob_id (w : WalrusResponse) : Option RStr :=
  match w.newly_created with
  | some created => some created.blob_object.blob_id
  | none =>
    match w.already_certified with
    | some certified => some certified.blob_object.blob_id
    | none => none

/-- Outcome of one PUT request: a send error, or a response with success flag,
status text, error-body text, and a (possibly failing) JSON parse. -/
inductive HttpPutResult where
  | sendErr (e : RStr)
  | resp (isSuccess : Bool) (status : RStr) (text : RStr) (json : Except RStr WalrusResponse)

/-- The single store URL built by `upload_to_walrus_async` (note: no
trailing-slash trimming here, and no alternate path). -/
def uploadStoreUrl (publisher : RStr) (epochs : Nat) : RStr :=
  publisher ++ str "/v1/store?epochs=" ++ (Nat.repr epochs).data

/-- `upload_to_walrus(_async)`: one PUT to the store URL; fail on send error,
non-success status (with status and body text), JSON parse failure, or a
response carrying no blob id. -/
def upload_to_walrus (O : RStr → Bytes → HttpPutResult) (data : Bytes)
    (publisher : RStr) (epochs : Nat) : Except RStr RStr :=
  match O (uploadStoreUrl publisher epochs) data with
  | .sendErr _ => .error (str "Failed to send request to Walrus Publisher")
  | .resp false status text _ =>
    .error (str "Walrus upload failed with status " ++ status ++ str ": " ++ text)
  | .resp true _ _ (.error _) => .error (str "Failed to parse Walrus response")
  | .resp true _ _ (.ok w) =>
    match w.get_blob_id with
    | some id => .ok id
    | none => .error (str "Walrus response missing blob ID")

/-- The URLs requested by `upload_to_walrus`: just the one store URL. -/
def uploadRequests (publisher : RStr) (epochs : Nat) : List RStr :=
  [uploadStoreUrl publisher epochs]

/-! ## The CLI workflows (`encrypt_and_store`, `decrypt_blob`, `sign_audit`) -/

/-- The JSON success output of `encrypt-and-store`. -/
structure EncryptionOutput where
  blob_id : RStr
  decryption_key : RStr
  checksum : RStr
  original_size : Nat
  encrypted_size : Nat

/-- `encrypt_and_store`: reject an empty file, checksum, encrypt, upload, and
only then assemble the success output. -/
def encrypt_and_store (E : Bytes → Bytes → Bytes) (rng : Nat → Nat)
    (O : RStr → Bytes → HttpPutResult) (fileContent : Bytes)
    (publisher : RStr) (epochs : Nat) : Except RStr EncryptionOutput :=
  if fileContent.isEmpty then .error (str "File is empty")
  else
    let original_size := fileContent.length
    let checksum := compute_checksum fileContent
    match encrypt_data E rng fileContent with
    | (ciphertext, key, nonce) =>
      let encrypted_size := ciphertext.length
      match upload_to_walrus O ciphertext publisher epochs with
      | .error e => .error e
      | .ok blob_id =>
        .ok { blob_id := blob_id,
              decryption_key := encode_decryption_key key nonce,
              checksum := checksum,
              original_size := original_size,
              encrypted_size := encrypted_size }

/-- `decrypt_blob`: download, decode the key material, decrypt, return the
plaintext (the file write is outside the model). -/
def decrypt_blob (E : Bytes → Bytes → Bytes) (O : RStr → HttpGetResult)
    (blob_id decryption_key publisher : RStr) : Except RStr Bytes :=
  match download_from_walrus O blob_id publisher with
  | .error e => .error e
  | .ok ciphertext =>
    match decode_decryption_key decryption_key with
    | .error e => .error (str e)
    | .ok (key, nonce) =>
      match decryptGCM E key nonce ciphertext with
      | none => .error (str "Decryption failed")
      | some plaintext => .ok plaintext

/-- The ed25519 primitives of `ed25519_dalek` (external): public-key
derivation from a 32-byte seed, and signing of a message with that seed. -/
structure Ed25519 where
  derivePublic : Bytes → Bytes
  signBytes : Bytes → Bytes → Bytes

/-- The JSON output of `sign-audit`. -/
structure AuditSignOutput where
  record_hash : RStr
  signature : RStr
  public_key : RStr

/-- `sign_audit`: hex-decode the record hash (optional `0x` stripped), decode
the 32-byte seed, sign the raw decoded hash bytes, report hex signature and
public key. -/
def sign_audit (P : Ed25519) (record_hash private_key_hex : RStr) :
    Except String AuditSignOutput :=
  match hexDecode (strip0x record_hash) with
  | none => .error "record_hash must be a hex string"
  | some hash_bytes =>
    match hexDecode (strip0x private_key_hex) with
    | none => .error "private_key must be hex"
    | some sk_bytes =>
      if sk_bytes.length ≠ 32 then .error "private_key must be 32 bytes (64 hex chars)"
      else .ok { record_hash := record_hash,
                 signature := hexEncode (P.signBytes sk_bytes hash_bytes),
                 public_key := hexEncode (P.derivePublic sk_bytes) }

/-! ### Claims about sizes and the empty-file guard -/

theorem encryptGCM_length (E : Bytes → Bytes → Bytes) (key nonce pt : Bytes)
    (hE : ∀ k b, (E k b).length = 16) :
    (encryptGCM E key nonce pt).length = pt.length + 16 := by
  unfold encryptGCM
  simp only [List.length_append, List.length_zipWith, length_natToBytesBE,
    length_keystream E key nonce pt.length hE]
  omega

/-- C7: the ciphertext is exactly 16 bytes (the AEAD tag) longer than the
plaintext, and consequently every successful `encrypt_and_store` reports
`encrypted_size = original_size + 16`. -/
theorem encrypted_size_spec (E : Bytes → Bytes → Bytes)
    (hE : ∀ k b, (E k b).length = 16) :
    (∀ key nonce pt : Bytes, (encryptGCM E key nonce pt).length = pt.length + 16) ∧
    (∀ (rng : Nat → Nat) (O : RStr → Bytes → HttpPutResult) (fileContent : Bytes)
      (publisher : RStr) (epochs : Nat) (out : EncryptionOutput),
      encrypt_and_store E rng O fileContent publisher epochs = .ok out →
      out.encrypted_size = out.original_size + 16) := by
  refine ⟨fun key nonce pt => encryptGCM_length E key nonce pt hE, ?_⟩
  intro rng O fileContent publisher epochs out hok
  by_cases hempty : fileContent.isEmpty
  · unfold encrypt_and_store at hok
    rw [if_pos hempty] at hok
    exact absurd hok (by simp)
  · unfold encrypt_and_store at hok
    rw [if_neg hempty] at hok
    simp only [encrypt_data] at hok
    split at hok
    · exact absurd hok (by simp)
    · have hout := (Except.ok.inj hok).symm
      rw [hout]
      exact encryptGCM_length E _ _ fileContent hE
  
/-- Witness for C7 on the spec's 25-byte example. -/
theorem encrypted_size_spec_witness :
    (encryptGCM (fun _ _ => List.replicate 16 0) [1] [2] (List.replicate 25 7)).length =
      (List.replicate 25 (7 : Nat)).length + 16 :=
  (encrypted_size_spec (fun _ _ => List.replicate 16 0) (fun _ _ => rfl)).1
    [1] [2] (List.replicate 25 7)

/-- C9: `encrypt_and_store` on an empty file fails with the input error
`"File is empty"` — for every block cipher, randomness source and upload
oracle, so neither encryption nor upload is ever consulted, and no success
output (no blob identifier, no key material) is produced. -/
theorem encrypt_and_store_empty_file (E : Bytes → Bytes → Bytes) (rng : Nat → Nat)
    (O : RStr → Bytes → HttpPutResult) (publisher : RStr) (epochs : Nat) :
    encrypt_and_store E rng O [] publisher epochs = .error (str "File is empty") := rfl

/-! ### Claims about the transport retry policy -/

/-- C2 counterexample: the upload path tries NO alternate endpoint path
convention. With an oracle that fails (status 500) on the single store URL but
would succeed on every other URL — in particular the alternate
`/v1/blobs?…` convention — the upload still surfaces a fatal transport
error; only one URL is ever requested. -/
theorem upload_single_path_counterexample :
    upload_to_walrus
      (fun url _ =>
        if url = str "https://pub/v1/store?epochs=1" then
          .resp false (str "500") (str "boom") (.error (str "x"))
        else
          .resp true (str "200") (str "") (.ok ⟨some ⟨⟨str "blob1"⟩⟩, none⟩))
      [1, 2, 3] (str "https://pub") 1 =
      .error (str "Walrus upload failed with status 500: boom") ∧
    (fun url (_ : Bytes) =>
        if url = str "https://pub/v1/store?epochs=1" then
          HttpPutResult.resp false (str "500") (str "boom") (.error (str "x"))
        else
          HttpPutResult.resp true (str "200") (str "") (.ok ⟨some ⟨⟨str "blob1"⟩⟩, none⟩))
      (str "https://pub/v1/blobs?epochs=1") [1, 2, 3] =
      HttpPutResult.resp true (str "200") (str "") (.ok ⟨some ⟨⟨str "blob1"⟩⟩, none⟩) ∧
    (uploadRequests (str "https://pub") 1).length = 1 := by
  refine ⟨rfl, rfl, rfl⟩

/-- C2 (amended): only the download path retries across the two known
equivalent endpoint path conventions — each candidate is requested exactly
once and the fatal failure carries the last (second) error detail — while the
upload path consults exactly one URL (`…/v1/store?epochs=…`): its result
depends only on the oracle's answer at that single URL. -/
theorem transport_retry_spec (O : RStr → HttpGetResult) (blob_id publisher : RStr)
    (s1 s2 : RStr) (b1 b2 : Except RStr Bytes)
    (h1 : O (trimEndSlashes publisher ++ str "/v1/" ++ blob_id) = .resp false s1 b1)
    (h2 : O (trimEndSlashes publisher ++ str "/v1/blobs/" ++ blob_id) = .resp false s2 b2) :
    download_from_walrus O blob_id publisher =
      .error (str "Failed to download blob " ++ blob_id ++ str " from Walrus: " ++
        (trimEndSlashes publisher ++ str "/v1/blobs/" ++ blob_id ++ str " -> status " ++ s2)) ∧
    downloadRequests O blob_id publisher = downloadCandidates publisher blob_id ∧
    (∀ (O1 O2 : RStr → Bytes → HttpPutResult) (data : Bytes) (epochs : Nat),
      O1 (uploadStoreUrl publisher epochs) data = O2 (uploadStoreUrl publisher epochs) data →
      upload_to_walrus O1 data publisher epochs = upload_to_walrus O2 data publisher epochs) := by
  refine ⟨?_, ?_, ?_⟩
  · unfold download_from_walrus downloadCandidates
    simp only [downloadLoop, h1, h2]
  · unfold downloadRequests downloadCandidates
    simp only [downloadLoopRequests, h1, h2]
  · intro O1 O2 data epochs hsame
    unfold upload_to_walrus
    rw [hsame]

/-- Witness for C2's amended statement at a concrete oracle. -/
theorem transport_retry_spec_witness :
    download_from_walrus (fun _ => .resp false (str "404") (.ok [])) (str "B")
        (str "https://pub") =
      .error (str "Failed to download blob " ++ str "B" ++ str " from Walrus: " ++
        (trimEndSlashes (str "https://pub") ++ str "/v1/blobs/" ++ str "B" ++
          str " -> status " ++ str "404")) ∧
    downloadRequests (fun _ => .resp false (str "404") (.ok [])) (str "B")
        (str "https://pub") =
      downloadCandidates (str "https://pub") (str "B") :=
  ⟨(transport_retry_spec (fun _ => .resp false (str "404") (.ok [])) (str "B")
      (str "https://pub") (str "404") (str "404") (.ok []) (.ok []) rfl rfl).1,
   (transport_retry_spec (fun _ => .resp false (str "404") (.ok [])) (str "B")
      (str "https://pub") (str "404") (str "404") (.ok []) (.ok []) rfl rfl).2.1⟩

/-! ### Claims about audit signing -/

theorem sign_audit_ok (P : Ed25519) (h seed : RStr) (hb sk : Bytes)
    (hhash : hexDecode (strip0x h) = some hb)
    (hseed : hexDecode (strip0x seed) = some sk)
    (hlen : sk.length = 32) :
    sign_audit P h seed =
      .ok ⟨h, hexEncode (P.signBytes sk hb), hexEncode (P.derivePublic sk)⟩ := by
  unfold sign_audit
  rw [hhash, hseed]
  show (if sk.length ≠ 32 then
      Except.error "private_key must be 32 bytes (64 hex chars)"
    else
      Except.ok (AuditSignOutput.mk h (hexEncode (P.signBytes sk hb))
        (hexEncode (P.derivePublic sk)))) = _
  rw [if_neg (fun hc => hc hlen)]

/-- C8: `sign_audit` is deterministic in its seed and signs the raw decoded
hash bytes: for a valid 32-byte seed the output (record hash echo, signature,
public key) is a pure function of the decoded seed bytes and the decoded hash
bytes (so any hex spelling of the same hash — e.g. with a `0x` prefix —
yields the same signature and public key), and a seed that is not valid hex,
or not exactly 32 bytes, fails with the key-format error. -/
theorem sign_audit_spec (P : Ed25519) (h seed : RStr) (hb sk : Bytes)
    (hhash : hexDecode (strip0x h) = some hb)
    (hseed : hexDecode (strip0x seed) = some sk)
    (hlen : sk.length = 32) :
    sign_audit P h seed =
      .ok ⟨h, hexEncode (P.signBytes sk hb), hexEncode (P.derivePublic sk)⟩ ∧
    (∀ h2 : RStr, hexDecode (strip0x h2) = some hb →
      sign_audit P h2 seed =
        .ok ⟨h2, hexEncode (P.signBytes sk hb), hexEncode (P.derivePublic sk)⟩) ∧
    (∀ seed2 : RStr, hexDecode (strip0x seed2) = none →
      sign_audit P h seed2 = .error "private_key must be hex") ∧
    (∀ (seed2 : RStr) (sk2 : Bytes), hexDecode (strip0x seed2) = some sk2 →
      sk2.length ≠ 32 →
      sign_audit P h seed2 = .error "private_key must be 32 bytes (64 hex chars)") := by
  refine ⟨sign_audit_ok P h seed hb sk hhash hseed hlen, ?_, ?_, ?_⟩
  · intro h2 hhash2
    exact sign_audit_ok P h2 seed hb sk hhash2 hseed hlen
  · intro seed2 hseed2
    unfold sign_audit
    rw [hhash, hseed2]
  · intro seed2 sk2 hseed2 hlen2
    unfold sign_audit
    rw [hhash, hseed2]
    show (if sk2.length ≠ 32 then
        Except.error "private_key must be 32 bytes (64 hex chars)"
      else
        Except.ok (AuditSignOutput.mk h (hexEncode (P.signBytes sk2 hb))
          (hexEncode (P.derivePublic sk2)))) = _
    rw [if_pos hlen2]

/-- Witness for C8 at cheap concrete primitives, seed and hash text. -/
theorem sign_audit_spec_witness :
    sign_audit ⟨fun sk => sk, fun sk m => sk ++ m⟩ (str "ff")
        (hexEncode (List.replicate 32 1)) =
      .ok ⟨str "ff", hexEncode (List.replicate 32 1 ++ [255]),
        hexEncode (List.replicate 32 1)⟩ ∧
    sign_audit ⟨fun sk => sk, fun sk m => sk ++ m⟩ (str "0xff")
        (hexEncode (List.replicate 32 1)) =
      .ok ⟨str "0xff", hexEncode (List.replicate 32 1 ++ [255]),
        hexEncode (List.replicate 32 1)⟩ :=
  ⟨(sign_audit_spec ⟨fun sk => sk, fun sk m => sk ++ m⟩ (str "ff")
      (hexEncode (List.replicate 32 1)) [255] (List.replicate 32 1)
      rfl (by rfl) rfl).1,
   (sign_audit_spec ⟨fun sk => sk, fun sk m => sk ++ m⟩ (str "ff")
      (hexEncode (List.replicate 32 1)) [255] (List.replicate 32 1)
      rfl (by rfl) rfl).2.1 (str "0xff") rfl⟩
